import Mathlib

/-!
Verification development for the university-geocoder repository.

The parser components are embedded from src/parsers/campus_parser.py and the
reconciliation engine from src/processors/poi_processor.py.  Strings are
modelled as lists of characters; Python dictionaries as association lists with
first-match lookup and replace-first-or-append update; the float specificity
ratio as a rational number.
-/

namespace Geocoder

/-- Characters treated as whitespace by Python str.strip. -/
def isPySpace (c : Char) : Bool :=
  c = ' ' || c = '\t' || c = '\n' || c = '\r' || c = '\x0b' || c = '\x0c'

/-- Remove leading whitespace, as the left half of Python str.strip. -/
def trimLeft (s : List Char) : List Char := s.dropWhile isPySpace

/-- Remove trailing whitespace, as the right half of Python str.strip. -/
def trimRight (s : List Char) : List Char := (s.reverse.dropWhile isPySpace).reverse

/-- Python str.strip: remove whitespace from both ends. -/
def pyStrip (s : List Char) : List Char := trimRight (trimLeft s)

/-- Characters kept by the replacement of "-" and "&" with the empty string in
post_process_name. -/
def keepChar (c : Char) : Bool := !(c = '-' || c = '&')

/-- The ordered suffix list of post_process_name (campus_parser.py lines 16-32):
five directional-area words followed by the ten phase words. -/
def suffixes_to_remove : List (List Char) :=
  ["西区".data, "东区".data, "北区".data, "南区".data, "中区".data,
   "一期".data, "二期".data, "三期".data, "四期".data, "五期".data,
   "六期".data, "七期".data, "八期".data, "九期".data, "十期".data]

/-- One iteration of the suffix-stripping loop: if the name currently ends with
the given suffix, cut it off (Python processed_name[: -len(suffix)]). -/
def stripOneSuffix (s suf : List Char) : List Char :=
  if suf.isSuffixOf s then s.take (s.length - suf.length) else s

/-- The whole suffix-stripping loop of post_process_name: a single pass over
suffixes_to_remove in order. -/
def stripSuffixes (s : List Char) : List Char :=
  suffixes_to_remove.foldl stripOneSuffix s

/-- The literal 主校区 used by the re.sub pattern. -/
def zhuXiaoqu : List Char := "主校区".data

/-- Greedy match end for the pattern (.+)主校区 anchored at the start of s:
the largest k with 1 ≤ k, 主校区 occurring at position k, and no newline among
the first k characters (the dot of the regex does not match a newline).
Returns none when no such k exists. -/
def zhuMatchEnd (s : List Char) : Option Nat :=
  (List.range s.length).reverse.find? (fun k =>
    decide (1 ≤ k) && decide ((s.drop k).take 3 = zhuXiaoqu)
      && (s.take k).all (fun c => !(c = '\n')))

/-- Scanning loop of re.sub(r"(.+)主校区", r"\1校区", s): try a match at the
current position; on success emit the captured group followed by 校区 and
continue after the match, otherwise emit one character and advance.  The fuel
argument bounds the recursion; fuel = length of the scanned list suffices. -/
def subScan : Nat → List Char → List Char
  | 0, s => s
  | _ + 1, [] => []
  | fuel + 1, c :: rest =>
    match zhuMatchEnd (c :: rest) with
    | some k => (c :: rest).take k ++ "校区".data ++ subScan fuel ((c :: rest).drop (k + 3))
    | none => c :: subScan fuel rest

/-- Python re.sub(r"(.+)主校区", r"\1校区", s). -/
def reSubZhu (s : List Char) : List Char := subScan s.length s

/-- The four successive assignments of post_process_name: strip, removal of
all "-" and "&", the suffix-stripping loop, then the 主校区 substitution
followed by the final strip. -/
def normalizedCore (name : List Char) : List Char :=
  pyStrip (reSubZhu (stripSuffixes ((pyStrip name).filter keepChar)))

/-- post_process_name from campus_parser.py: empty input gives None; otherwise
the normalization chain runs, and an empty final result is returned as None. -/
def post_process_name (name : List Char) : Option (List Char) :=
  if name = [] then none
  else if normalizedCore name = [] then none
  else some (normalizedCore name)

/-- Substring test: containsSub s sub is the Python expression sub in s, true
when sub occurs contiguously inside s. -/
def containsSub (s sub : List Char) : Bool :=
  (List.range (s.length + 1)).any (fun i => decide ((s.drop i).take sub.length = sub))

/-- The whitelisted endings of is_valid_campus_name. -/
def valid_endings : List (List Char) :=
  ["校区".data, "园区".data, "院区".data, "校园".data, "学校".data, "分校".data, "院".data]

/-- is_valid_campus_name from campus_parser.py: None is valid, the empty string
is invalid, names holding 附属 or 医院 are invalid, and otherwise validity
means ending in one of the whitelisted suffix words. -/
def is_valid_campus_name : Option (List Char) → Bool
  | none => true
  | some name =>
    if name = [] then false
    else if containsSub name "附属".data || containsSub name "医院".data then false
    else valid_endings.any (fun e => e.isSuffixOf name)

/-- The raw place record handed to the parser and the reconciler.  Fields are
the ones read by the embedded code; id and title model missing values as the
empty list (Python falsiness). -/
structure Poi where
  id : List Char
  title : List Char
  address : List Char
  province : List Char
  city : List Char
  district : List Char
  lng : Option Int
  lat : Option Int
deriving DecidableEq

/-- is_location_substring from campus_parser.py: None or empty text is not a
location substring; otherwise the text must occur inside a non-empty province,
city or district field of the place. -/
def is_location_substring (text : Option (List Char)) (poi : Poi) : Bool :=
  match text with
  | none => false
  | some t =>
    if t = [] then false
    else (!poi.province.isEmpty && containsSub poi.province t)
      || (!poi.city.isEmpty && containsSub poi.city t)
      || (!poi.district.isEmpty && containsSub poi.district t)

/-- extract_bracketed_content from campus_parser.py: strip, then remove one
pair of half-width parentheses when the text both starts with ( and ends
with ), and strip again.  Full-width parentheses are not recognized. -/
def extract_bracketed_content (text : List Char) : List Char :=
  let t := pyStrip text
  if t = [] then []
  else
    let t2 := if t.head? = some '(' ∧ t.getLast? = some ')' then (t.drop 1).take (t.length - 2) else t
    pyStrip t2

/-- Scanning loop of re.split on the group pattern of a half-width ( followed
by one or more non-) characters and a closing ): acc holds the characters of
the current plain segment in reverse.  At a ( whose first following ) leaves a
non-empty inner run, the pending plain segment and the whole bracket group are
emitted and the scan continues after the ); otherwise the character joins the
plain segment.  fuel = length of the scanned list suffices. -/
def rawSplitAux : Nat → List Char → List Char → List (List Char)
  | 0, acc, s => [acc.reverse ++ s]
  | _ + 1, acc, [] => [acc.reverse]
  | fuel + 1, acc, c :: rest =>
    if c = '(' then
      let inner := rest.takeWhile (fun d => !(d = ')'))
      let rest2 := rest.dropWhile (fun d => !(d = ')'))
      match rest2, inner with
      | ')' :: after, _ :: _ =>
          acc.reverse :: ('(' :: inner ++ [')']) :: rawSplitAux fuel [] after
      | _, _ => rawSplitAux fuel (c :: acc) rest
    else rawSplitAux fuel (c :: acc) rest

/-- The list returned by re.split with the capture group, including empty
pieces. -/
def rawSplit (s : List Char) : List (List Char) := rawSplitAux s.length [] s

/-- parts: the split with the empty (falsy) pieces filtered out, as in the
list comprehension of parse_campus_name. -/
def splitParts (s : List Char) : List (List Char) := (rawSplit s).filter (fun p => !p.isEmpty)

/-- Anchor test data for one segment: the de-parenthesized content is
post-processed and checked by the validator and by the location-substring
rule. -/
def anchorInfo (poi : Poi) (part : List Char) : Bool × Bool :=
  let content := extract_bracketed_content part
  let ppc := post_process_name content
  (is_valid_campus_name ppc, is_location_substring ppc poi)

/-- Backward scan of parse_campus_name over the reversed segment list: the
first segment (from the end) that is an anchor is returned together with all
segments up to and including it in original order, and with its
location-substring flag. -/
def findAnchorRev (poi : Poi) : List (List Char) → Option (List (List Char) × Bool)
  | [] => none
  | part :: earlier =>
    let info := anchorInfo poi part
    if info.1 || info.2 then some (earlier.reverse ++ [part], info.2)
    else findAnchorRev poi earlier

/-- One unit of the compiled prefix pattern: re.escape makes every character of
the institution name literal, after which only the full-width parentheses are
replaced by a character class matching either width.  Half-width parentheses in
the institution name stay literal. -/
def charMatches (c t : Char) : Bool :=
  if c = '（' then t = '(' || t = '（'
  else if c = '）' then t = ')' || t = '）'
  else t = c

/-- pattern.match(poi_title) succeeds: every character of the institution name
consumes exactly one character of the title under charMatches; the match end is
then the length of the institution name. -/
def prefixMatchesB (school title : List Char) : Bool :=
  decide (school.length ≤ title.length) &&
  ((school.zip title).all fun ct => charMatches ct.1 ct.2)

/-- The distinguished sentinel string returned for a rejected parse. -/
def rejectStr : List Char := "REJECT".data

/-- parse_campus_name from campus_parser.py.  The result is a Python value:
some rejectStr is the "REJECT" sentinel, none is Python None (no campus), and
any other some is the extracted campus name. -/
def parse_campus_name (poi : Poi) (school_name : List Char) : Option (List Char) :=
  let poi_title := poi.title
  if !(prefixMatchesB school_name poi_title) then some rejectStr
  else if school_name.length = poi_title.length then none
  else
    let remaining := pyStrip (poi_title.drop school_name.length)
    if remaining = [] ∨ remaining = "主校区".data ∨ remaining = "校本部".data then none
    else
      let parts := splitParts remaining
      match findAnchorRev poi parts.reverse with
      | none => some rejectStr
      | some (chosen, isLoc) =>
        let final0 := (chosen.map extract_bracketed_content).flatten
        let final1 := if !(is_valid_campus_name (post_process_name final0)) && isLoc
                      then final0 ++ "校区".data else final0
        post_process_name final1

/-- First-match lookup in an association list, as Python dict.get. -/
def alookup {α β : Type} [DecidableEq α] : List (α × β) → α → Option β
  | [], _ => none
  | (k, v) :: rest, a => if k = a then some v else alookup rest a

/-- Replace-first-or-append update in an association list, as Python dict
assignment. -/
def aset {α β : Type} [DecidableEq α] : List (α × β) → α → β → List (α × β)
  | [], a, b => [(a, b)]
  | (k, v) :: rest, a, b => if k = a then (a, b) :: rest else (k, v) :: aset rest a b

/-- A GlobalOwnership entry of processed_pois_map: the owning institution and
its specificity ratio. -/
structure GlobalEntry where
  school_name : List Char
  prefix_ratio : ℚ
deriving DecidableEq

/-- A LocalSlots entry of an institution's _campus_map_temp. -/
structure LocalEntry where
  poi_id : List Char
  title_len : Nat
  poi_title : List Char
deriving DecidableEq

/-- A campus record as built by process_poi_data.  The name is the parse
result, which may be Python None. -/
structure Campus where
  id : List Char
  name : Option (List Char)
  address : List Char
  province : List Char
  city : List Char
  district : List Char
  lng : Option Int
  lat : Option Int
deriving DecidableEq

/-- The parts of a school's output dict that the reconciler reads and writes:
the campus list and the _campus_map_temp local-slot map (keyed by the campus
name, which may be Python None). -/
structure School where
  campuses : List Campus
  campusMap : List (Option (List Char) × LocalEntry)
deriving DecidableEq

/-- The mutable reconciliation state: final_universities_data_map,
processed_pois_map and the rejected_pois list. -/
structure RecState where
  univs : List (List Char × School)
  global : List (List Char × GlobalEntry)
  rejected : List Poi
deriving DecidableEq

/-- The campus_data dict built for an accepted place. -/
def campusOf (poi : Poi) (name : Option (List Char)) : Campus :=
  ⟨poi.id, name, poi.address, poi.province, poi.city, poi.district, poi.lng, poi.lat⟩

/-- A school entry as initialized by the loader: empty campus list and empty
local-slot map. -/
def emptySchool : School := ⟨[], []⟩

/-- The transfer and replacement detachments of process_poi_data: remove every
campus with the given place id from the named school's campus list.  When the
school is not in the map nothing happens, mirroring the dict .get guard. -/
def removeCampus (univs : List (List Char × School)) (name : List Char) (pid : List Char) :
    List (List Char × School) :=
  match alookup univs name with
  | some sch => aset univs name { sch with campuses := sch.campuses.filter (fun c => !(c.id = pid)) }
  | none => univs

/-- The attach step of process_poi_data: append the new campus to the named
school's campus list and write its local-slot entry. -/
def appendCampus (univs : List (List Char × School)) (name : List Char) (c : Campus)
    (key : Option (List Char)) (e : LocalEntry) : List (List Char × School) :=
  match alookup univs name with
  | some sch => aset univs name
      { sch with campuses := sch.campuses ++ [c], campusMap := aset sch.campusMap key e }
  | none => univs

/-- The two optional detachments performed before attaching an accepted place:
transfer away from the previous global owner's campus list, then removal of the
campus currently holding the same-named local slot of the target school. -/
def univsAfterDetach (univs : List (List Char × School)) (poiId : List Char)
    (school_name : List Char) (prev? : Option GlobalEntry) (existing? : Option LocalEntry) :
    List (List Char × School) :=
  let univs1 :=
    match prev? with
    | some prev => removeCampus univs prev.school_name poiId
    | none => univs
  match existing? with
  | some e => removeCampus univs1 school_name e.poi_id
  | none => univs1

/-- The accepting tail of process_poi_data (lines 62-121): optional transfer
from the previous global owner, optional replacement of the same-named local
slot holder, then append of the new campus and update of both tracking maps. -/
def doAccept (st : RecState) (poi : Poi) (school_name : List Char)
    (res : Option (List Char)) (prev? : Option GlobalEntry)
    (existing? : Option LocalEntry) (ratio : ℚ) : RecState :=
  { st with
    univs := appendCampus (univsAfterDetach st.univs poi.id school_name prev? existing?)
      school_name (campusOf poi res) res ⟨poi.id, poi.title.length, poi.title⟩,
    global := aset st.global poi.id ⟨school_name, ratio⟩ }

/-- The local check of process_poi_data against the school's slot map, and the
acceptance it guards: reject when the slot for the extracted name is already
held with a title length at most the current one, otherwise accept. -/
def localSlotCheck (st : RecState) (poi : Poi) (school_name : List Char)
    (res : Option (List Char)) (prev? : Option GlobalEntry) (ratio : ℚ) (sch : School) :
    Option (Bool × RecState) :=
  match alookup sch.campusMap res with
  | some e =>
    if e.title_len ≤ poi.title.length then some (false, st)
    else some (true, doAccept st poi school_name res prev? (some e) ratio)
  | none => some (true, doAccept st poi school_name res prev? none ratio)

/-- The part of process_poi_data entered after the global check passed: fetch
the school's record and run the local check.  Returns none exactly when Python
would raise a KeyError because the school is missing from
final_universities_data_map. -/
def localPhase (st : RecState) (poi : Poi) (school_name : List Char)
    (res : Option (List Char)) (prev? : Option GlobalEntry) (ratio : ℚ) :
    Option (Bool × RecState) :=
  match alookup st.univs school_name with
  | none => none
  | some sch => localSlotCheck st poi school_name res prev? ratio sch

/-- process_poi_data from poi_processor.py, parametrized like the source by
the parse function.  The Bool mirrors the Python return value; none models the
KeyError on a school missing from the map. -/
def process_poi_data (parseFn : Poi → List Char → Option (List Char))
    (st : RecState) (poi : Poi) (school_name : List Char) : Option (Bool × RecState) :=
  if poi.id = [] ∨ poi.title = [] then some (false, st)
  else if parseFn poi school_name = some rejectStr then
    some (false, { st with rejected := st.rejected ++ [poi] })
  else
    match alookup st.global poi.id with
    | some prev =>
      if (school_name.length : ℚ) / (poi.title.length : ℚ) ≤ prev.prefix_ratio then
        some (false, st)
      else localPhase st poi school_name (parseFn poi school_name) (some prev)
        ((school_name.length : ℚ) / (poi.title.length : ℚ))
    | none => localPhase st poi school_name (parseFn poi school_name) none
        ((school_name.length : ℚ) / (poi.title.length : ℚ))

/-- The empty reconciliation state at the start of a run. -/
def initState : RecState := ⟨[], [], []⟩

/-- One observable step of a run: either the main loop registers a school
entry freshly initialized by the loader, or one place is processed. -/
inductive Step (parseFn : Poi → List Char → Option (List Char)) : RecState → RecState → Prop
  | addSchool (st : RecState) (name : List Char) :
      Step parseFn st { st with univs := aset st.univs name emptySchool }
  | processPoi (st st' : RecState) (poi : Poi) (school : List Char) (b : Bool)
      (h : process_poi_data parseFn st poi school = some (b, st')) :
      Step parseFn st st'

/-- States reachable by a run of the reconciler from the empty state. -/
inductive Reachable (parseFn : Poi → List Char → Option (List Char)) : RecState → Prop
  | init : Reachable parseFn initState
  | step {st st' : RecState} : Reachable parseFn st → Step parseFn st st' →
      Reachable parseFn st'

theorem alookup_aset_self {α β : Type} [DecidableEq α] (l : List (α × β)) (k : α) (v : β) :
    alookup (aset l k v) k = some v := by
  induction l with
  | nil => simp [aset, alookup]
  | cons hd tl ih =>
    obtain ⟨k0, v0⟩ := hd
    by_cases hk : k0 = k
    · simp [aset, alookup, hk]
    · simp [aset, alookup, hk, ih]

theorem alookup_aset_ne {α β : Type} [DecidableEq α] (l : List (α × β)) (k k' : α) (v : β)
    (h : k' ≠ k) : alookup (aset l k v) k' = alookup l k' := by
  have h2 : ¬ k = k' := fun hh => h hh.symm
  induction l with
  | nil => simp [aset, alookup, h2]
  | cons hd tl ih =>
    obtain ⟨k0, v0⟩ := hd
    by_cases hk : k0 = k
    · subst hk
      simp [aset, alookup, h2]
    · by_cases hk' : k0 = k'
      · subst hk'
        simp [aset, alookup, hk, h]
      · simp [aset, alookup, hk, hk', ih]

theorem alookup_removeCampus (univs : List (List Char × School)) (m : List Char)
    (pid : List Char) (n : List Char) :
    alookup (removeCampus univs m pid) n =
      if n = m then
        (alookup univs m).map
          (fun sch => { sch with campuses := sch.campuses.filter (fun c => !(c.id = pid)) })
      else alookup univs n := by
  unfold removeCampus
  by_cases hn : n = m
  · subst hn
    cases h : alookup univs n with
    | none => simp [h]
    | some sch => simp [h, alookup_aset_self]
  · cases h : alookup univs m with
    | none => simp [h, hn]
    | some sch => simp [h, hn, alookup_aset_ne _ _ _ _ hn]

theorem alookup_appendCampus (univs : List (List Char × School)) (m : List Char)
    (c : Campus) (key : Option (List Char)) (e : LocalEntry) (n : List Char) :
    alookup (appendCampus univs m c key e) n =
      if n = m then
        (alookup univs m).map
          (fun sch => { sch with campuses := sch.campuses ++ [c],
                                 campusMap := aset sch.campusMap key e })
      else alookup univs n := by
  unfold appendCampus
  by_cases hn : n = m
  · subst hn
    cases h : alookup univs n with
    | none => simp [h]
    | some sch => simp [h, alookup_aset_self]
  · cases h : alookup univs m with
    | none => simp [h, hn]
    | some sch => simp [h, hn, alookup_aset_ne _ _ _ _ hn]

theorem alookup_removeCampus_mem (u : List (List Char × School)) (m pid n : List Char)
    (sch' : School) (c : Campus)
    (h : alookup (removeCampus u m pid) n = some sch') (hc : c ∈ sch'.campuses) :
    ∃ sch0, alookup u n = some sch0 ∧ sch'.campusMap = sch0.campusMap ∧
      c ∈ sch0.campuses ∧ (n = m → ¬ c.id = pid) := by
  rw [alookup_removeCampus] at h
  by_cases hn : n = m
  · rw [if_pos hn] at h
    cases h0 : alookup u m with
    | none => rw [h0] at h; simp at h
    | some sch0 =>
      rw [h0] at h
      simp only [Option.map_some'] at h
      injection h with h
      subst h
      refine ⟨sch0, hn ▸ h0, rfl, ?_, ?_⟩
      · exact (List.mem_filter.mp hc).1
      · intro _ hcid
        have := (List.mem_filter.mp hc).2
        simp [hcid] at this
  · rw [if_neg hn] at h
    exact ⟨sch', h, rfl, hc, fun hm => absurd hm hn⟩

theorem alookup_removeCampus_isSome (u : List (List Char × School)) (m pid n : List Char) :
    (alookup (removeCampus u m pid) n).isSome = (alookup u n).isSome := by
  rw [alookup_removeCampus]
  by_cases hn : n = m
  · rw [if_pos hn, hn]
    cases alookup u m <;> simp
  · rw [if_neg hn]

theorem alookup_univsAfterDetach_mem (u : List (List Char × School)) (pid school : List Char)
    (prev? : Option GlobalEntry) (existing? : Option LocalEntry) (n : List Char)
    (sch' : School) (c : Campus)
    (h : alookup (univsAfterDetach u pid school prev? existing?) n = some sch')
    (hc : c ∈ sch'.campuses) :
    ∃ sch0, alookup u n = some sch0 ∧ sch'.campusMap = sch0.campusMap ∧
      c ∈ sch0.campuses ∧
      (∀ prev, prev? = some prev → n = prev.school_name → ¬ c.id = pid) ∧
      (∀ e, existing? = some e → n = school → ¬ c.id = e.poi_id) := by
  unfold univsAfterDetach at h
  cases hprev : prev? with
  | some prev =>
    cases hex : existing? with
    | some e =>
      rw [hprev, hex] at h
      obtain ⟨sch1, h1, hm1, hc1, hfact1⟩ := alookup_removeCampus_mem _ _ _ _ _ _ h hc
      obtain ⟨sch0, h0, hm0, hc0, hfact0⟩ := alookup_removeCampus_mem _ _ _ _ _ _ h1 hc1
      refine ⟨sch0, h0, hm1.trans hm0, hc0, ?_, ?_⟩
      · intro p hp hn
        injection hp with hp
        subst hp
        exact hfact0 hn
      · intro e' he hn
        injection he with he
        subst he
        exact hfact1 hn
    | none =>
      rw [hprev, hex] at h
      obtain ⟨sch0, h0, hm0, hc0, hfact0⟩ := alookup_removeCampus_mem _ _ _ _ _ _ h hc
      refine ⟨sch0, h0, hm0, hc0, ?_, ?_⟩
      · intro p hp hn
        injection hp with hp
        subst hp
        exact hfact0 hn
      · intro e' he
        exact absurd he (by simp)
  | none =>
    cases hex : existing? with
    | some e =>
      rw [hprev, hex] at h
      obtain ⟨sch0, h0, hm0, hc0, hfact0⟩ := alookup_removeCampus_mem _ _ _ _ _ _ h hc
      refine ⟨sch0, h0, hm0, hc0, ?_, ?_⟩
      · intro p hp
        exact absurd hp (by simp)
      · intro e' he hn
        injection he with he
        subst he
        exact hfact0 hn
    | none =>
      rw [hprev, hex] at h
      refine ⟨sch', h, rfl, hc, ?_, ?_⟩
      · intro p hp
        exact absurd hp (by simp)
      · intro e' he
        exact absurd he (by simp)

theorem alookup_univsAfterDetach_isSome (u : List (List Char × School)) (pid school : List Char)
    (prev? : Option GlobalEntry) (existing? : Option LocalEntry) (n : List Char) :
    (alookup (univsAfterDetach u pid school prev? existing?) n).isSome =
      (alookup u n).isSome := by
  unfold univsAfterDetach
  cases prev? with
  | some prev =>
    cases existing? with
    | some e => rw [alookup_removeCampus_isSome, alookup_removeCampus_isSome]
    | none => rw [alookup_removeCampus_isSome]
  | none =>
    cases existing? with
    | some e => rw [alookup_removeCampus_isSome]
    | none => rfl

/-- Consistency of the campus lists with the two tracking maps, in the
direction from lists to maps: every campus currently held by an institution is
globally owned by that institution and is the current holder of the
institution's local slot for its campus name. -/
def listsBackedByMaps (st : RecState) : Prop :=
  ∀ n sch c, alookup st.univs n = some sch → c ∈ sch.campuses →
    (∃ g, alookup st.global c.id = some g ∧ g.school_name = n) ∧
    (∃ e, alookup sch.campusMap c.name = some e ∧ e.poi_id = c.id)

theorem inv_doAccept (st : RecState) (poi : Poi) (school : List Char)
    (res : Option (List Char)) (prev? : Option GlobalEntry) (existing? : Option LocalEntry)
    (ratio : ℚ) (sch : School)
    (hInv : listsBackedByMaps st)
    (hsch : alookup st.univs school = some sch)
    (hprev : alookup st.global poi.id = prev?)
    (hex : alookup sch.campusMap res = existing?) :
    listsBackedByMaps (doAccept st poi school res prev? existing? ratio) := by
  intro n sch' c h hc
  simp only [doAccept] at h hc ⊢
  rw [alookup_appendCampus] at h
  by_cases hns : n = school
  · subst hns
    rw [if_pos rfl] at h
    cases hud : alookup (univsAfterDetach st.univs poi.id n prev? existing?) n with
    | none => rw [hud] at h; simp at h
    | some sch2 =>
      rw [hud] at h
      simp only [Option.map_some'] at h
      injection h with h
      subst h
      rcases List.mem_append.mp hc with hc2 | hcNew
      · obtain ⟨sch0, h0, hmapEq, hc0, _, hexFact⟩ :=
          alookup_univsAfterDetach_mem _ _ _ _ _ _ _ _ hud hc2
        rw [hsch] at h0
        injection h0 with h0
        subst h0
        obtain ⟨⟨g, hg, hgs⟩, ⟨e0, he0, he0id⟩⟩ := hInv n sch c hsch hc0
        constructor
        · by_cases hcid : c.id = poi.id
          · exact ⟨⟨n, ratio⟩, by rw [hcid, alookup_aset_self], rfl⟩
          · exact ⟨g, by rw [alookup_aset_ne _ _ _ _ hcid]; exact hg, hgs⟩
        · by_cases hname : c.name = res
          · rw [hname] at he0
            rw [he0] at hex
            have := hexFact e0 hex.symm rfl
            exact absurd he0id.symm (by simpa using this)
          · refine ⟨e0, ?_, he0id⟩
            rw [alookup_aset_ne _ _ _ _ hname, hmapEq]
            exact he0
      · rw [List.mem_singleton] at hcNew
        subst hcNew
        refine ⟨⟨⟨n, ratio⟩, ?_, rfl⟩, ⟨⟨poi.id, poi.title.length, poi.title⟩, ?_, rfl⟩⟩
        · simp only [campusOf]
          rw [alookup_aset_self]
        · simp only [campusOf]
          rw [alookup_aset_self]
  · rw [if_neg hns] at h
    obtain ⟨sch0, h0, hmapEq, hc0, hprevFact, _⟩ :=
      alookup_univsAfterDetach_mem _ _ _ _ _ _ _ _ h hc
    obtain ⟨⟨g, hg, hgs⟩, ⟨e0, he0, he0id⟩⟩ := hInv n sch0 c h0 hc0
    refine ⟨?_, ?_⟩
    · by_cases hcid : c.id = poi.id
      · rw [hcid, hprev] at hg
        exact absurd hcid (hprevFact g hg hgs.symm)
      · exact ⟨g, by rw [alookup_aset_ne _ _ _ _ hcid]; exact hg, hgs⟩
    · rw [hmapEq]
      exact ⟨e0, he0, he0id⟩

theorem inv_localPhase (st : RecState) (poi : Poi) (school : List Char)
    (res : Option (List Char)) (prev? : Option GlobalEntry) (ratio : ℚ) (b : Bool)
    (st' : RecState)
    (hInv : listsBackedByMaps st)
    (hprev : alookup st.global poi.id = prev?)
    (h : localPhase st poi school res prev? ratio = some (b, st')) :
    listsBackedByMaps st' := by
  unfold localPhase at h
  split at h
  · exact absurd h (by simp)
  · rename_i sch hsch
    unfold localSlotCheck at h
    split at h
    · rename_i e hex
      split at h
      · simp only [Option.some.injEq, Prod.mk.injEq] at h
        obtain ⟨_, hst⟩ := h
        subst hst
        exact hInv
      · simp only [Option.some.injEq, Prod.mk.injEq] at h
        obtain ⟨_, hst⟩ := h
        subst hst
        exact inv_doAccept st poi school res prev? (some e) ratio sch hInv hsch hprev hex
    · rename_i hex
      simp only [Option.some.injEq, Prod.mk.injEq] at h
      obtain ⟨_, hst⟩ := h
      subst hst
      exact inv_doAccept st poi school res prev? none ratio sch hInv hsch hprev hex

theorem inv_process (pf : Poi → List Char → Option (List Char)) (st : RecState) (poi : Poi)
    (school : List Char) (b : Bool) (st' : RecState)
    (hInv : listsBackedByMaps st)
    (h : process_poi_data pf st poi school = some (b, st')) :
    listsBackedByMaps st' := by
  unfold process_poi_data at h
  split at h
  · simp only [Option.some.injEq, Prod.mk.injEq] at h
    obtain ⟨_, hst⟩ := h
    subst hst
    exact hInv
  · split at h
    · simp only [Option.some.injEq, Prod.mk.injEq] at h
      obtain ⟨_, hst⟩ := h
      subst hst
      exact hInv
    · split at h
      · rename_i prev hglob
        split at h
        · simp only [Option.some.injEq, Prod.mk.injEq] at h
          obtain ⟨_, hst⟩ := h
          subst hst
          exact hInv
        · exact inv_localPhase st poi school _ (some prev) _ b st' hInv hglob h
      · rename_i hglob
        exact inv_localPhase st poi school _ none _ b st' hInv hglob h

theorem inv_addSchool (st : RecState) (name : List Char)
    (hInv : listsBackedByMaps st) :
    listsBackedByMaps { st with univs := aset st.univs name emptySchool } := by
  intro n sch c h hc
  have h' : alookup (aset st.univs name emptySchool) n = some sch := h
  by_cases hn : n = name
  · subst hn
    rw [alookup_aset_self] at h'
    injection h' with h'
    subst h'
    exact absurd hc (List.not_mem_nil c)
  · rw [alookup_aset_ne _ _ _ _ hn] at h'
    exact hInv n sch c h' hc

theorem reach_inv (pf : Poi → List Char → Option (List Char)) (st : RecState)
    (h : Reachable pf st) : listsBackedByMaps st := by
  induction h with
  | init =>
    intro n sch c hl _
    exact absurd hl (by simp [initState, alookup])
  | step _ hs ih =>
    cases hs with
    | addSchool name => exact inv_addSchool _ name ih
    | processPoi x1 x2 x3 x4 x5 => exact inv_process pf _ x2 x3 x4 _ ih x5

theorem process_true_eq_doAccept (pf : Poi → List Char → Option (List Char)) (st : RecState)
    (poi : Poi) (school : List Char) (st' : RecState)
    (h : process_poi_data pf st poi school = some (true, st')) :
    ∃ sch prevOpt eOpt, alookup st.univs school = some sch ∧
      alookup st.global poi.id = prevOpt ∧
      alookup sch.campusMap (pf poi school) = eOpt ∧
      st' = doAccept st poi school (pf poi school) prevOpt eOpt
        ((school.length : ℚ) / (poi.title.length : ℚ)) := by
  unfold process_poi_data at h
  split at h
  · exact absurd h (by simp)
  · split at h
    · exact absurd h (by simp)
    · have hLocal : ∀ (prevOpt : Option GlobalEntry),
          alookup st.global poi.id = prevOpt →
          localPhase st poi school (pf poi school) prevOpt
            ((school.length : ℚ) / (poi.title.length : ℚ)) = some (true, st') →
          ∃ sch prevOpt2 eOpt, alookup st.univs school = some sch ∧
            alookup st.global poi.id = prevOpt2 ∧
            alookup sch.campusMap (pf poi school) = eOpt ∧
            st' = doAccept st poi school (pf poi school) prevOpt2 eOpt
              ((school.length : ℚ) / (poi.title.length : ℚ)) := by
        intro prevOpt hglob hl
        unfold localPhase at hl
        split at hl
        · exact absurd hl (by simp)
        · rename_i sch hsch
          unfold localSlotCheck at hl
          split at hl
          · rename_i e hex
            split at hl
            · exact absurd hl (by simp)
            · simp only [Option.some.injEq, Prod.mk.injEq, true_and] at hl
              exact ⟨sch, prevOpt, some e, hsch, hglob, hex, hl.symm⟩
          · rename_i hex
            simp only [Option.some.injEq, Prod.mk.injEq, true_and] at hl
            exact ⟨sch, prevOpt, none, hsch, hglob, hex, hl.symm⟩
      split at h
      · rename_i prev hglob
        split at h
        · exact absurd h (by simp)
        · exact hLocal (some prev) hglob h
      · rename_i hglob
        exact hLocal none hglob h

theorem accept_effects (pf : Poi → List Char → Option (List Char)) (st : RecState)
    (poi : Poi) (school : List Char) (st' : RecState)
    (h : process_poi_data pf st poi school = some (true, st')) :
    alookup st'.global poi.id =
      some ⟨school, (school.length : ℚ) / (poi.title.length : ℚ)⟩ ∧
    ∃ sch', alookup st'.univs school = some sch' ∧
      campusOf poi (pf poi school) ∈ sch'.campuses ∧
      alookup sch'.campusMap (pf poi school) = some ⟨poi.id, poi.title.length, poi.title⟩ := by
  obtain ⟨sch, prevOpt, eOpt, hsch, _, _, hst⟩ := process_true_eq_doAccept pf st poi school st' h
  subst hst
  constructor
  · simp only [doAccept]
    exact alookup_aset_self _ _ _
  · simp only [doAccept]
    have hs : (alookup (univsAfterDetach st.univs poi.id school prevOpt eOpt) school).isSome
        = true := by
      rw [alookup_univsAfterDetach_isSome, hsch]
      rfl
    cases hud : alookup (univsAfterDetach st.univs poi.id school prevOpt eOpt) school with
    | none => rw [hud] at hs; exact absurd hs (by simp)
    | some sch2 =>
      refine ⟨School.mk (sch2.campuses ++ [campusOf poi (pf poi school)])
          (aset sch2.campusMap (pf poi school) ⟨poi.id, poi.title.length, poi.title⟩),
        ?_, ?_, ?_⟩
      · rw [alookup_appendCampus, if_pos rfl, hud, Option.map_some']
      · exact List.mem_append_right _ (List.mem_singleton_self _)
      · exact alookup_aset_self _ _ _

theorem process_global_some (pf : Poi → List Char → Option (List Char)) (st : RecState)
    (poi : Poi) (school : List Char) (prev : GlobalEntry)
    (hid : ¬ poi.id = []) (htitle : ¬ poi.title = [])
    (hres : ¬ pf poi school = some rejectStr)
    (hglob : alookup st.global poi.id = some prev) :
    process_poi_data pf st poi school =
      if (school.length : ℚ) / ((poi.title).length : ℚ) ≤ prev.prefix_ratio
      then some (false, st)
      else localPhase st poi school (pf poi school) (some prev)
        ((school.length : ℚ) / ((poi.title).length : ℚ)) := by
  unfold process_poi_data
  rw [if_neg (fun hcon => Or.elim hcon hid htitle), if_neg hres, hglob]

theorem process_global_none (pf : Poi → List Char → Option (List Char)) (st : RecState)
    (poi : Poi) (school : List Char)
    (hid : ¬ poi.id = []) (htitle : ¬ poi.title = [])
    (hres : ¬ pf poi school = some rejectStr)
    (hglob : alookup st.global poi.id = none) :
    process_poi_data pf st poi school =
      localPhase st poi school (pf poi school) none
        ((school.length : ℚ) / ((poi.title).length : ℚ)) := by
  unfold process_poi_data
  rw [if_neg (fun hcon => Or.elim hcon hid htitle), if_neg hres, hglob]

theorem localPhase_entry_some (st : RecState) (poi : Poi) (school : List Char)
    (res : Option (List Char)) (prevOpt : Option GlobalEntry) (ratio : ℚ)
    (sch : School) (e : LocalEntry)
    (hsch : alookup st.univs school = some sch)
    (hex : alookup sch.campusMap res = some e) :
    localPhase st poi school res prevOpt ratio =
      if e.title_len ≤ (poi.title).length then some (false, st)
      else some (true, doAccept st poi school res prevOpt (some e) ratio) := by
  unfold localPhase
  rw [hsch]
  show localSlotCheck st poi school res prevOpt ratio sch = _
  unfold localSlotCheck
  rw [hex]

theorem localPhase_entry_none (st : RecState) (poi : Poi) (school : List Char)
    (res : Option (List Char)) (prevOpt : Option GlobalEntry) (ratio : ℚ)
    (sch : School)
    (hsch : alookup st.univs school = some sch)
    (hex : alookup sch.campusMap res = none) :
    localPhase st poi school res prevOpt ratio =
      some (true, doAccept st poi school res prevOpt none ratio) := by
  unfold localPhase
  rw [hsch]
  show localSlotCheck st poi school res prevOpt ratio sch = _
  unfold localSlotCheck
  rw [hex]

/-! Concrete objects used to exercise the embedding on explicit inputs.  The
two school names are chosen so that both prefix-match the transfer title, with
the longer name having the higher specificity ratio. -/

def schoolA : List Char := "北大".data

def schoolB : List Char := "北大学院".data

def poiEast : Poi := ⟨"1".data, "北大(东校区)".data, [], [], [], [], none, none⟩

def poiEastLong : Poi := ⟨"2".data, "北大(东校区)123".data, [], [], [], [], none, none⟩

def poiWestYard : Poi := ⟨"1".data, "北大(西校园)".data, [], [], [], [], none, none⟩

def poiBare : Poi := ⟨"1".data, "北大".data, [], [], [], [], none, none⟩

def poiWestZone : Poi := ⟨"1".data, "北大西区".data, [], [], [], [], none, none⟩

def poiTransfer : Poi := ⟨"1".data, "北大学院城校区".data, [], [], [], [], none, none⟩

def poiFWB : Poi := ⟨"1".data, "北大（B校区）".data, [], [], [], [], none, none⟩

def poiHWB : Poi := ⟨"1".data, "北大(B校区)".data, [], [], [], [], none, none⟩

def poiFW8 : Poi := ⟨"1".data, "A（B）".data, [], [], [], [], none, none⟩

def poiHW8 : Poi := ⟨"1".data, "A(B)".data, [], [], [], [], none, none⟩

def eastName : Option (List Char) := some "东校区".data

def eastEntry : LocalEntry := ⟨"1".data, 7, "北大(东校区)".data⟩

def stOne : RecState := ⟨[(schoolA, emptySchool)], [], []⟩

/-- The state after schoolA accepts poiEast under the name 东校区. -/
def stEast : RecState :=
  ⟨[(schoolA, ⟨[campusOf poiEast eastName], [(eastName, eastEntry)]⟩)],
   [("1".data, ⟨schoolA, (2 : ℚ) / 7⟩)], []⟩

/-- The state after schoolA accepts poiBare, whose parse result is Python
None. -/
def stBare : RecState :=
  ⟨[(schoolA, ⟨[campusOf poiBare none], [(none, ⟨"1".data, 2, "北大".data⟩)]⟩)],
   [("1".data, ⟨schoolA, (2 : ℚ) / 2⟩)], []⟩

def transferName : Option (List Char) := some "学院城校区".data

def cityName : Option (List Char) := some "城校区".data

def transferEntry : LocalEntry := ⟨"1".data, 7, "北大学院城校区".data⟩

def stTwo0 : RecState := ⟨[(schoolA, emptySchool), (schoolB, emptySchool)], [], []⟩

/-- The state after schoolA accepts poiTransfer. -/
def stTwo1 : RecState :=
  ⟨[(schoolA, ⟨[campusOf poiTransfer transferName], [(transferName, transferEntry)]⟩),
    (schoolB, emptySchool)],
   [("1".data, ⟨schoolA, (2 : ℚ) / 7⟩)], []⟩

/-- The state after schoolB then takes poiTransfer away from schoolA: the
campus left schoolA's list while schoolA's local-slot entry stays behind. -/
def stTwo2 : RecState :=
  ⟨[(schoolA, ⟨[], [(transferName, transferEntry)]⟩),
    (schoolB, ⟨[campusOf poiTransfer cityName], [(cityName, transferEntry)]⟩)],
   [("1".data, ⟨schoolB, (4 : ℚ) / 7⟩)], []⟩

theorem stOne_reachable : Reachable parse_campus_name stOne :=
  Reachable.step Reachable.init (Step.addSchool initState schoolA)

theorem stEast_reachable : Reachable parse_campus_name stEast :=
  Reachable.step stOne_reachable
    (Step.processPoi stOne stEast poiEast schoolA true rfl)

theorem ratio_of_schoolB_not_le : ¬ ((schoolB.length : ℚ) / ((poiTransfer.title).length : ℚ)
    ≤ (2 : ℚ) / 7) := by
  rw [show schoolB.length = 4 from rfl, show (poiTransfer.title).length = 7 from rfl]
  norm_num

theorem stTwo2_step : process_poi_data parse_campus_name stTwo1 poiTransfer schoolB
    = some (true, stTwo2) := by
  rw [process_global_some parse_campus_name stTwo1 poiTransfer schoolB ⟨schoolA, (2 : ℚ) / 7⟩
    (by decide) (by decide) (by decide) rfl]
  rw [show GlobalEntry.prefix_ratio ⟨schoolA, (2 : ℚ) / 7⟩ = (2 : ℚ) / 7 from rfl,
    if_neg ratio_of_schoolB_not_le]
  rfl

theorem stTwo2_reachable : Reachable parse_campus_name stTwo2 :=
  Reachable.step
    (Reachable.step
      (Reachable.step
        (Reachable.step Reachable.init (Step.addSchool initState schoolA))
        (Step.addSchool stOne schoolB))
      (Step.processPoi stTwo0 stTwo1 poiTransfer schoolA true rfl))
    (Step.processPoi stTwo1 stTwo2 poiTransfer schoolB true stTwo2_step)

/-- C4 (counterexample): in the reachable state stTwo2, schoolA still has a
LocalSlots entry for 学院城校区 although its campus list is empty: the claimed
maps-to-lists consistency fails after a cross-institution reassignment. -/
theorem c4_consistency_counterexample :
    ¬ (∀ st : RecState, Reachable parse_campus_name st →
      ∀ n sch key e, alookup st.univs n = some sch →
        alookup sch.campusMap key = some e →
        ∃ c, c ∈ sch.campuses ∧ c.id = e.poi_id ∧ c.name = key) := by
  intro hclaim
  obtain ⟨c, hc, -, -⟩ :=
    hclaim stTwo2 stTwo2_reachable schoolA ⟨[], [(transferName, transferEntry)]⟩
      transferName transferEntry rfl rfl
  exact absurd hc (List.not_mem_nil c)

/-- C4 (amended): after every reconciler step the consistency holds in the
direction from the campus lists to the maps: every campus held by an
institution is globally owned by it and holds that institution's local slot
for its name; the reverse direction fails because stale map entries survive
detachments. -/
theorem c4_consistency_amended (pf : Poi → List Char → Option (List Char)) (st : RecState)
    (hreach : Reachable pf st) :
    ∀ n sch c, alookup st.univs n = some sch → c ∈ sch.campuses →
      (∃ g, alookup st.global c.id = some g ∧ g.school_name = n) ∧
      (∃ e, alookup sch.campusMap c.name = some e ∧ e.poi_id = c.id) :=
  reach_inv pf st hreach

/-- C4 witness: the amended consistency applied to the concrete reachable
state stTwo2 at schoolB's campus. -/
theorem c4_consistency_amended_witness :
    (∃ g, alookup stTwo2.global (campusOf poiTransfer cityName).id = some g ∧
        g.school_name = schoolB) ∧
    (∃ e, alookup (⟨[campusOf poiTransfer cityName], [(cityName, transferEntry)]⟩ :
        School).campusMap (campusOf poiTransfer cityName).name = some e ∧
      e.poi_id = (campusOf poiTransfer cityName).id) :=
  c4_consistency_amended parse_campus_name stTwo2 stTwo2_reachable schoolB
    ⟨[campusOf poiTransfer cityName], [(cityName, transferEntry)]⟩
    (campusOf poiTransfer cityName) rfl (List.mem_singleton_self _)

/-- C5: in every reachable state no place id sits in the campus lists of two
different institutions, and an accepting step that takes a place appends it to
the accepting institution's list while no other institution's list retains a
campus with that place id after the step. -/
theorem c5_unique_ownership (pf : Poi → List Char → Option (List Char)) (st : RecState)
    (hreach : Reachable pf st) :
    (∀ n1 n2 s1 s2 c1 c2, alookup st.univs n1 = some s1 → alookup st.univs n2 = some s2 →
      c1 ∈ s1.campuses → c2 ∈ s2.campuses → c1.id = c2.id → n1 = n2) ∧
    (∀ poi school st', process_poi_data pf st poi school = some (true, st') →
      (∃ sch', alookup st'.univs school = some sch' ∧
        campusOf poi (pf poi school) ∈ sch'.campuses) ∧
      (∀ n sch' c, ¬ n = school → alookup st'.univs n = some sch' →
        c ∈ sch'.campuses → ¬ c.id = poi.id)) := by
  constructor
  · intro n1 n2 s1 s2 c1 c2 h1 h2 hc1 hc2 hid
    have hInv := reach_inv pf st hreach
    obtain ⟨⟨g1, hg1, hgs1⟩, -⟩ := hInv n1 s1 c1 h1 hc1
    obtain ⟨⟨g2, hg2, hgs2⟩, -⟩ := hInv n2 s2 c2 h2 hc2
    rw [hid] at hg1
    rw [hg1] at hg2
    injection hg2 with hg2
    rw [← hgs1, ← hgs2, hg2]
  · intro poi school st' hstep
    have hreach' : Reachable pf st' :=
      Reachable.step hreach (Step.processPoi st st' poi school true hstep)
    have hInv' := reach_inv pf st' hreach'
    obtain ⟨hglob, sch', hsch', hmem, -⟩ := accept_effects pf st poi school st' hstep
    refine ⟨⟨sch', hsch', hmem⟩, ?_⟩
    intro n schn c hne hn hc hcid
    obtain ⟨⟨g, hg, hgs⟩, -⟩ := hInv' n schn c hn hc
    rw [hcid, hglob] at hg
    injection hg with hg
    rw [← hgs, ← hg] at hne
    exact hne rfl

/-- C5 witness: the uniqueness part applied at the concrete reachable state
stTwo2, where place 1 sits only in schoolB's campus list. -/
theorem c5_unique_ownership_witness : schoolB = schoolB :=
  (c5_unique_ownership parse_campus_name stTwo2 stTwo2_reachable).1 schoolB schoolB
    ⟨[campusOf poiTransfer cityName], [(cityName, transferEntry)]⟩
    ⟨[campusOf poiTransfer cityName], [(cityName, transferEntry)]⟩
    (campusOf poiTransfer cityName) (campusOf poiTransfer cityName)
    rfl rfl (List.mem_singleton_self _) (List.mem_singleton_self _) rfl

/-- C1 (counterexample): a NoCampus parse result (Python None) is not a no-op:
processing poiBare, whose parse result is None, mutates the state. -/
theorem c1_nocampus_counterexample :
    ¬ (∀ (st : RecState) (poi : Poi) (school : List Char) (b : Bool) (st' : RecState),
      parse_campus_name poi school = none →
      process_poi_data parse_campus_name st poi school = some (b, st') →
      st' = st) := by
  intro hclaim
  have h := hclaim stOne poiBare schoolA true stBare rfl rfl
  have h2 : stBare.univs = stOne.univs := congrArg RecState.univs h
  exact absurd h2 (by decide)

/-- C1 (amended): a NoCampus parse result is reconciled exactly like an
accepted name, with None as the campus name: when such an attempt is accepted,
a Campus entry with null name is appended to the institution's list, global
ownership is recorded and the None-keyed local slot is written. -/
theorem c1_nocampus_amended (pf : Poi → List Char → Option (List Char)) (st : RecState)
    (poi : Poi) (school : List Char) (st' : RecState)
    (h : process_poi_data pf st poi school = some (true, st'))
    (hres : pf poi school = none) :
    alookup st'.global poi.id =
      some ⟨school, (school.length : ℚ) / ((poi.title).length : ℚ)⟩ ∧
    ∃ sch', alookup st'.univs school = some sch' ∧ campusOf poi none ∈ sch'.campuses ∧
      alookup sch'.campusMap none = some ⟨poi.id, (poi.title).length, poi.title⟩ := by
  have h2 := accept_effects pf st poi school st' h
  rw [hres] at h2
  exact h2

/-- C1 witness: the concrete NoCampus place poiBare is accepted by schoolA and
creates a null-named campus entry. -/
theorem c1_nocampus_amended_witness :
    alookup stBare.global poiBare.id =
      some ⟨schoolA, (schoolA.length : ℚ) / ((poiBare.title).length : ℚ)⟩ ∧
    ∃ sch', alookup stBare.univs schoolA = some sch' ∧
      campusOf poiBare none ∈ sch'.campuses ∧
      alookup sch'.campusMap none = some ⟨poiBare.id, (poiBare.title).length, poiBare.title⟩ :=
  c1_nocampus_amended parse_campus_name stOne poiBare schoolA stBare rfl rfl

/-- C2 (counterexample): an attempt whose title is strictly longer than the
stored slot title is rejected, although the claim says a strictly longer title
displaces the slot. -/
theorem c2_local_check_counterexample :
    ¬ (∀ (st : RecState) (poi : Poi) (school : List Char) (sch : School) (e : LocalEntry),
      alookup st.global poi.id = none →
      alookup st.univs school = some sch →
      alookup sch.campusMap (parse_campus_name poi school) = some e →
      e.title_len < (poi.title).length →
      ¬ process_poi_data parse_campus_name st poi school = some (false, st)) := by
  intro hclaim
  exact hclaim stEast poiEastLong schoolA
    ⟨[campusOf poiEast eastName], [(eastName, eastEntry)]⟩ eastEntry
    rfl rfl rfl (by decide) rfl

/-- C2 (amended): when the target institution already has a local-slot entry
for the extracted name and the attempt reaches the local check, it is rejected
without mutation exactly when the current title length is greater than or
equal to the stored one: a slot is only displaced by a strictly shorter
title. -/
theorem c2_local_check_amended (pf : Poi → List Char → Option (List Char)) (st : RecState)
    (poi : Poi) (school : List Char) (sch : School) (e : LocalEntry)
    (hid : ¬ poi.id = []) (htitle : ¬ poi.title = [])
    (hres : ¬ pf poi school = some rejectStr)
    (hglob : ∀ p, alookup st.global poi.id = some p →
      p.prefix_ratio < (school.length : ℚ) / ((poi.title).length : ℚ))
    (hsch : alookup st.univs school = some sch)
    (hex : alookup sch.campusMap (pf poi school) = some e) :
    (process_poi_data pf st poi school = some (false, st) ↔
      e.title_len ≤ (poi.title).length) := by
  cases hg : alookup st.global poi.id with
  | some p =>
    rw [process_global_some pf st poi school p hid htitle hres hg,
      if_neg (not_le.mpr (hglob p hg)),
      localPhase_entry_some st poi school (pf poi school) (some p) _ sch e hsch hex]
    by_cases hlen : e.title_len ≤ (poi.title).length
    · rw [if_pos hlen]
      simp [hlen]
    · rw [if_neg hlen]
      simp [hlen]
  | none =>
    rw [process_global_none pf st poi school hid htitle hres hg,
      localPhase_entry_some st poi school (pf poi school) none _ sch e hsch hex]
    by_cases hlen : e.title_len ≤ (poi.title).length
    · rw [if_pos hlen]
      simp [hlen]
    · rw [if_neg hlen]
      simp [hlen]

/-- C2 witness: the amended local check applied to the concrete state stEast,
where the strictly longer title of poiEastLong is rejected. -/
theorem c2_local_check_amended_witness :
    process_poi_data parse_campus_name stEast poiEastLong schoolA = some (false, stEast) := by
  refine (c2_local_check_amended parse_campus_name stEast poiEastLong schoolA
    ⟨[campusOf poiEast eastName], [(eastName, eastEntry)]⟩ eastEntry
    (by decide) (by decide) (by decide) ?_ rfl rfl).mpr (by decide)
  intro p hp
  exact Option.noConfusion
    ((Eq.symm (rfl : alookup stEast.global poiEastLong.id = none)).trans hp)

theorem ratio_westyard_le :
    (schoolA.length : ℚ) / ((poiWestYard.title).length : ℚ) ≤ (2 : ℚ) / 7 := by
  rw [show schoolA.length = 2 from rfl, show (poiWestYard.title).length = 7 from rfl]
  norm_num

theorem stEast_rejects_west : process_poi_data parse_campus_name stEast poiWestYard schoolA
    = some (false, stEast) := by
  rw [process_global_some parse_campus_name stEast poiWestYard schoolA ⟨schoolA, (2 : ℚ) / 7⟩
    (by decide) (by decide) (by decide) rfl]
  rw [show GlobalEntry.prefix_ratio ⟨schoolA, (2 : ℚ) / 7⟩ = (2 : ℚ) / 7 from rfl,
    if_pos ratio_westyard_le]

/-- C3 (counterexample): an entry owned by the same institution does cause a
global-check rejection: schoolA already owns place 1 with an equal ratio, the
new name's local slot is free, and the attempt is still rejected without
mutation. -/
theorem c3_global_check_counterexample :
    ¬ (∀ (st : RecState) (poi : Poi) (school : List Char) (prev : GlobalEntry) (sch : School),
      ¬ poi.id = [] → ¬ poi.title = [] →
      ¬ parse_campus_name poi school = some rejectStr →
      alookup st.global poi.id = some prev →
      prev.school_name = school →
      alookup st.univs school = some sch →
      alookup sch.campusMap (parse_campus_name poi school) = none →
      ¬ process_poi_data parse_campus_name st poi school = some (false, st)) := by
  intro hclaim
  exact hclaim stEast poiWestYard schoolA ⟨schoolA, (2 : ℚ) / 7⟩
    ⟨[campusOf poiEast eastName], [(eastName, eastEntry)]⟩
    (by decide) (by decide) (by decide) rfl rfl rfl rfl stEast_rejects_west

/-- C3 (amended): for an attempt whose place already has a global entry, the
attempt is rejected without mutation exactly when the stored ratio is greater
than or equal to the current ratio — regardless of which institution owns the
entry — or when the local check fires. -/
theorem c3_global_check_amended (pf : Poi → List Char → Option (List Char)) (st : RecState)
    (poi : Poi) (school : List Char) (sch : School) (prev : GlobalEntry)
    (hid : ¬ poi.id = []) (htitle : ¬ poi.title = [])
    (hres : ¬ pf poi school = some rejectStr)
    (hglob : alookup st.global poi.id = some prev)
    (hsch : alookup st.univs school = some sch) :
    (process_poi_data pf st poi school = some (false, st) ↔
      ((school.length : ℚ) / ((poi.title).length : ℚ) ≤ prev.prefix_ratio ∨
       ∃ e, alookup sch.campusMap (pf poi school) = some e ∧
         e.title_len ≤ (poi.title).length)) := by
  rw [process_global_some pf st poi school prev hid htitle hres hglob]
  by_cases hra : (school.length : ℚ) / ((poi.title).length : ℚ) ≤ prev.prefix_ratio
  · rw [if_pos hra]
    simp [hra]
  · rw [if_neg hra]
    cases hex : alookup sch.campusMap (pf poi school) with
    | some e =>
      rw [localPhase_entry_some st poi school (pf poi school) (some prev) _ sch e hsch hex]
      by_cases hlen : e.title_len ≤ (poi.title).length
      · rw [if_pos hlen]
        constructor
        · intro _
          exact Or.inr ⟨e, rfl, hlen⟩
        · intro _
          rfl
      · rw [if_neg hlen]
        constructor
        · intro hcon
          exact absurd hcon (by simp)
        · rintro (hcon | ⟨e', he', hlen'⟩)
          · exact absurd hcon hra
          · injection he' with he'
            subst he'
            exact absurd hlen' hlen
    | none =>
      rw [localPhase_entry_none st poi school (pf poi school) (some prev) _ sch hsch hex]
      constructor
      · intro hcon
        exact absurd hcon (by simp)
      · rintro (hcon | ⟨e', he', _⟩)
        · exact absurd hcon hra
        · exact Option.noConfusion he'

/-- C3 witness: the amended global check applied to the concrete state stEast,
where the same-owner equal-ratio replay of place 1 is rejected. -/
theorem c3_global_check_amended_witness :
    process_poi_data parse_campus_name stEast poiWestYard schoolA = some (false, stEast) :=
  (c3_global_check_amended parse_campus_name stEast poiWestYard schoolA
    ⟨[campusOf poiEast eastName], [(eastName, eastEntry)]⟩ ⟨schoolA, (2 : ℚ) / 7⟩
    (by decide) (by decide) (by decide) rfl rfl).mpr (Or.inl ratio_westyard_le)

theorem stripOneSuffix_append (s suf : List Char) (h : suf.isSuffixOf s) :
    stripOneSuffix s suf ++ suf = s := by
  obtain ⟨t, ht⟩ := List.isSuffixOf_iff_suffix.mp h
  unfold stripOneSuffix
  rw [if_pos h]
  subst ht
  rw [List.length_append, Nat.add_sub_cancel, List.take_left]

theorem foldl_stripOneSuffix_decomp (l : List (List Char)) (s : List Char) :
    ∃ rs : List (List Char), rs.Sublist l ∧ (l.foldl stripOneSuffix s) ++ rs.reverse.flatten = s := by
  induction l generalizing s with
  | nil => exact ⟨[], List.Sublist.refl _, by simp⟩
  | cons suf rest ih =>
    by_cases h : suf.isSuffixOf s
    · obtain ⟨rs, hsub, heq⟩ := ih (stripOneSuffix s suf)
      refine ⟨suf :: rs, List.Sublist.cons₂ _ hsub, ?_⟩
      rw [List.foldl_cons, List.reverse_cons, List.flatten_append, ← List.append_assoc, heq]
      simpa using stripOneSuffix_append s suf h
    · obtain ⟨rs, hsub, heq⟩ := ih s
      have hstep : stripOneSuffix s suf = s := by
        unfold stripOneSuffix
        rw [if_neg h]
      exact ⟨rs, List.Sublist.cons _ hsub, by rw [List.foldl_cons, hstep]; exact heq⟩

/-- C6 (counterexample): the input 梅一期西区 ends in a numbered-phase word
followed by a directional word, and normalization removes both listed
qualifiers, not only the final one. -/
theorem c6_single_strip_counterexample :
    ("一期".data ∈ suffixes_to_remove ∧ "西区".data ∈ suffixes_to_remove) ∧
    post_process_name ("梅".data ++ "一期".data ++ "西区".data) = some "梅".data := by
  decide

/-- C6 (amended): in one normalization the suffix loop makes a single ordered
pass over the fixed list, so the qualifiers removed from the end form a
subsequence of suffixes_to_remove: each listed qualifier is removed at most
once, but several may go when an earlier strip exposes a later-listed one. -/
theorem c6_strip_sequence_amended (s : List Char) :
    ∃ rs : List (List Char), rs.Sublist suffixes_to_remove ∧
      stripSuffixes s ++ rs.reverse.flatten = s :=
  foldl_stripOneSuffix_decomp suffixes_to_remove s

/-- C6 witness: the amended decomposition at the double-qualifier input. -/
theorem c6_strip_sequence_amended_witness :
    ∃ rs : List (List Char), rs.Sublist suffixes_to_remove ∧
      stripSuffixes ("梅".data ++ "一期".data ++ "西区".data) ++ rs.reverse.flatten
        = "梅".data ++ "一期".data ++ "西区".data :=
  c6_strip_sequence_amended ("梅".data ++ "一期".data ++ "西区".data)

/-- C7 (counterexample): normalization is not idempotent: 梅西区一期 normalizes
to 梅西区, which a second normalization strips further to 梅. -/
theorem c7_idempotent_counterexample :
    (post_process_name "梅西区一期".data).bind post_process_name
      ≠ post_process_name "梅西区一期".data := by
  decide

theorem trimRight_append (u : List Char) : ∃ t, trimRight u ++ t = u := by
  refine ⟨(u.reverse.takeWhile isPySpace).reverse, ?_⟩
  unfold trimRight
  rw [← List.reverse_append, List.takeWhile_append_dropWhile, List.reverse_reverse]

theorem trimRight_idem (u : List Char) : trimRight (trimRight u) = trimRight u := by
  unfold trimRight
  rw [List.reverse_reverse, List.dropWhile_idempotent]

theorem trimLeft_head_false (s : List Char) (c : Char) (h : (trimLeft s).head? = some c) :
    isPySpace c = false := by
  have h2 := List.head?_dropWhile_not isPySpace s
  unfold trimLeft at h
  rw [h] at h2
  exact h2

theorem pyStrip_idem (s : List Char) : pyStrip (pyStrip s) = pyStrip s := by
  unfold pyStrip
  have h1 : trimLeft (trimRight (trimLeft s)) = trimRight (trimLeft s) := by
    cases hh : trimRight (trimLeft s) with
    | nil => rfl
    | cons c cs =>
      obtain ⟨t, ht⟩ := trimRight_append (trimLeft s)
      rw [hh] at ht
      have hc : isPySpace c = false := by
        apply trimLeft_head_false s c
        rw [← ht]
        rfl
      show trimLeft (c :: cs) = c :: cs
      unfold trimLeft
      rw [List.dropWhile_cons, hc]
      simp
  rw [h1, trimRight_idem]

theorem mem_pyStrip (s : List Char) (c : Char) (h : c ∈ pyStrip s) : c ∈ s := by
  unfold pyStrip at h
  obtain ⟨t, ht⟩ := trimRight_append (trimLeft s)
  have h2 : c ∈ trimLeft s := by
    rw [← ht]
    exact List.mem_append_left _ h
  unfold trimLeft at h2
  exact (List.dropWhile_sublist isPySpace).subset h2

theorem mem_stripSuffixes (s : List Char) (c : Char) (h : c ∈ stripSuffixes s) : c ∈ s := by
  obtain ⟨rs, -, heq⟩ := foldl_stripOneSuffix_decomp suffixes_to_remove s
  rw [← heq]
  exact List.mem_append_left _ h

theorem mem_subScan (fuel : Nat) (s : List Char) (c : Char) (h : c ∈ subScan fuel s) :
    c ∈ s ∨ c = '校' ∨ c = '区' := by
  induction fuel generalizing s with
  | zero => exact Or.inl h
  | succ n ih =>
    cases s with
    | nil => exact absurd h (by simp [subScan])
    | cons a rest =>
      unfold subScan at h
      cases hm : zhuMatchEnd (a :: rest) with
      | some k =>
        rw [hm] at h
        rcases List.mem_append.mp h with h2 | h2
        · rcases List.mem_append.mp h2 with h3 | h3
          · exact Or.inl ((List.take_subset _ _) h3)
          · rw [show "校区".data = ['校', '区'] from rfl] at h3
            rcases List.mem_cons.mp h3 with h4 | h4
            · exact Or.inr (Or.inl h4)
            · rcases List.mem_cons.mp h4 with h5 | h5
              · exact Or.inr (Or.inr h5)
              · exact absurd h5 (List.not_mem_nil c)
        · rcases ih _ h2 with h3 | h3
          · exact Or.inl ((List.drop_subset _ _) h3)
          · exact Or.inr h3
      | none =>
        rw [hm] at h
        rcases List.mem_cons.mp h with h2 | h2
        · exact Or.inl (h2 ▸ List.mem_cons_self a rest)
        · rcases ih rest h2 with h3 | h3
          · exact Or.inl (List.mem_cons_of_mem a h3)
          · exact Or.inr h3

theorem mem_normalizedCore (s : List Char) (c : Char) (h : c ∈ normalizedCore s) :
    keepChar c = true := by
  unfold normalizedCore at h
  have h1 := mem_pyStrip _ _ h
  unfold reSubZhu at h1
  rcases mem_subScan _ _ _ h1 with h2 | h2 | h2
  · have h3 := mem_stripSuffixes _ _ h2
    exact List.of_mem_filter h3
  · rw [h2]
    decide
  · rw [h2]
    decide

/-- C7 (amended): normalization is idempotent on every input whose normalized
result no longer ends in a listed suffix and is untouched by the 主校区
substitution; in general a second normalization may strip further, as the
counterexample shows. -/
theorem c7_idempotent_amended (x y : List Char)
    (h1 : post_process_name x = some y)
    (h2 : stripSuffixes y = y)
    (h3 : reSubZhu y = y) :
    post_process_name y = some y := by
  unfold post_process_name at h1
  by_cases hx : x = []
  · rw [if_pos hx] at h1
    exact absurd h1 (by simp)
  · rw [if_neg hx] at h1
    by_cases hcore : normalizedCore x = []
    · rw [if_pos hcore] at h1
      exact absurd h1 (by simp)
    · rw [if_neg hcore] at h1
      have h1 := Option.some.inj h1
      have hy : ¬ y = [] := by
        rw [← h1]
        exact hcore
      have hstrip : pyStrip y = y := by
        rw [← h1]
        unfold normalizedCore
        rw [pyStrip_idem]
      have hfilter : y.filter keepChar = y := by
        apply List.filter_eq_self.mpr
        intro a ha
        apply mem_normalizedCore x
        rw [h1]
        exact ha
      have hcorey : normalizedCore y = y := by
        unfold normalizedCore
        rw [hstrip, hfilter, h2, h3, hstrip]
      unfold post_process_name
      rw [if_neg hy, hcorey, if_neg hy]

/-- C7 witness: the amended idempotence applied at 东校区, whose normalized
form is itself. -/
theorem c7_idempotent_amended_witness :
    post_process_name "东校区".data = some "东校区".data :=
  c7_idempotent_amended "东校区".data "东校区".data (by decide) (by decide) (by decide)

/-- Stated from the spec's words, for comparison with the code's matcher: the
bracket-insensitive form of a string, with every full-width parenthesis
replaced by its half-width version, so that two strings are equal under the
spec's bracket-insensitive matching exactly when their forms agree. -/
def specBracketNorm (s : List Char) : List Char :=
  s.map (fun c => if c = '（' then '(' else if c = '）' then ')' else c)

/-- C8 (counterexample): the title A（B） and the institution name A(B) are
equal under bracket-insensitive matching, yet the parse result is the REJECT
sentinel rather than NoCampus: only full-width parentheses in the institution
name are made interchangeable, not half-width ones. -/
theorem c8_nocampus_counterexample :
    ¬ (∀ (poi : Poi) (school : List Char),
      specBracketNorm poi.title = specBracketNorm school →
      parse_campus_name poi school = none) := by
  intro hclaim
  have h := hclaim poiFW8 "A(B)".data (by decide)
  exact absurd h (by decide)

/-- C8 (amended): when the title matches the institution name under the
code's one-sided equivalence — a full-width parenthesis in the name matches
either width in the title, every other character matches exactly — and the
match consumes the whole title, or the stripped remainder is empty or a
main-campus marker, the parse result is NoCampus. -/
theorem c8_nocampus_amended (poi : Poi) (school : List Char)
    (hm : prefixMatchesB school (poi.title) = true)
    (hrest : school.length = (poi.title).length ∨
      (pyStrip ((poi.title).drop school.length) = [] ∨
       pyStrip ((poi.title).drop school.length) = "主校区".data ∨
       pyStrip ((poi.title).drop school.length) = "校本部".data)) :
    parse_campus_name poi school = none := by
  unfold parse_campus_name
  have hcond : ¬ ((!(prefixMatchesB school (poi.title))) = true) := by
    rw [hm]
    decide
  rw [if_neg hcond]
  rcases hrest with hlen | hrem
  · rw [if_pos hlen]
  · by_cases hlen : school.length = (poi.title).length
    · rw [if_pos hlen]
    · rw [if_neg hlen, if_pos hrem]

/-- C8 witness: the direction that does work, a full-width name matching a
half-width title completely, gives NoCampus. -/
theorem c8_nocampus_amended_witness :
    parse_campus_name poiHW8 "A（B）".data = none :=
  c8_nocampus_amended poiHW8 "A（B）".data (by decide) (Or.inl (by decide))

/-- C9 (counterexample): a segment whose content is entirely removed by
normalization is an anchor by the valid-qualifier rule: normalization returns
None for 西区 and the validator classifies None as valid. -/
theorem c9_empty_anchor_counterexample :
    ¬ (∀ part : List Char,
      post_process_name (extract_bracketed_content part) = none →
      is_valid_campus_name (post_process_name (extract_bracketed_content part)) = false) := by
  intro hclaim
  exact absurd (hclaim "西区".data (by decide)) (by decide)

/-- C9 (amended): the validator does classify the empty string as invalid, but
an all-removed normalization yields None, never the empty string, and the
validator classifies None as valid — so a lone directional segment is an
anchor; the concrete parse of such a title then returns NoCampus because the
final name also normalizes to None. -/
theorem c9_empty_anchor_amended :
    is_valid_campus_name (some []) = false ∧
    is_valid_campus_name none = true ∧
    (∀ s : List Char, ¬ post_process_name s = some []) ∧
    parse_campus_name poiWestZone schoolA = none := by
  refine ⟨by decide, by decide, ?_, by decide⟩
  intro s h
  unfold post_process_name at h
  by_cases hs : s = []
  · rw [if_pos hs] at h
    exact Option.noConfusion h
  · rw [if_neg hs] at h
    by_cases hcore : normalizedCore s = []
    · rw [if_pos hcore] at h
      exact Option.noConfusion h
    · rw [if_neg hcore] at h
      exact hcore (Option.some.inj h)

/-- C9 witness: the never-empty-result fact applied at the all-removed
input 西区. -/
theorem c9_empty_anchor_amended_witness :
    ¬ post_process_name "西区".data = some [] :=
  c9_empty_anchor_amended.2.2.1 "西区".data

theorem rawSplitAux_no_paren (fuel : Nat) : ∀ (acc s : List Char), (∀ c ∈ s, ¬ c = '(') →
    rawSplitAux fuel acc s = [acc.reverse ++ s] := by
  induction fuel with
  | zero =>
    intro acc s _
    rfl
  | succ n ih =>
    intro acc s h
    cases s with
    | nil => simp [rawSplitAux]
    | cons c rest =>
      have hc : ¬ c = '(' := h c (List.mem_cons_self c rest)
      unfold rawSplitAux
      rw [if_neg hc, ih (c :: acc) rest (fun d hd => h d (List.mem_cons_of_mem c hd))]
      simp

/-- C10: segment splitting recognizes only half-width parentheses: a remainder
with no half-width opening parenthesis forms a single plain segment, the
full-width-parenthesized content keeps its parentheses, and concretely the
full-width title 北大（B校区） is rejected while the half-width 北大(B校区) is
accepted as B校区 with the parentheses stripped. -/
theorem c10_halfwidth_only :
    (∀ s : List Char, ¬ s = [] → (∀ c ∈ s, ¬ c = '(') → splitParts s = [s]) ∧
    extract_bracketed_content "（B校区）".data = "（B校区）".data ∧
    parse_campus_name poiFWB schoolA = some rejectStr ∧
    parse_campus_name poiHWB schoolA = some "B校区".data := by
  refine ⟨?_, by decide, by decide, by decide⟩
  intro s hne hnp
  unfold splitParts rawSplit
  rw [rawSplitAux_no_paren s.length [] s hnp]
  simp [List.isEmpty_eq_true, hne]

/-- C10 witness: the single-segment fact applied at the full-width remainder. -/
theorem c10_halfwidth_only_witness :
    splitParts "（B校区）".data = ["（B校区）".data] :=
  c10_halfwidth_only.1 "（B校区）".data (by decide) (by decide)

end Geocoder
